import Mathlib

set_option maxHeartbeats 1000000

/-!
Shallow embedding of `gmail-tester.js` (Scout-Technologies/gmail-tester).

Modelling conventions:
 - JavaScript strings are modelled as `List Char` (`JStr`).
 - JavaScript numbers appearing in the poller are modelled as `Option Int`,
   where `none` stands for `undefined`/`NaN` (addition propagates `none`;
   every comparison against `none` is `false`, as for `NaN`).
 - Node `Buffer`s are modelled as `List Nat` (byte sequences); `Buffer.from`
   on a string is UTF-8 encoding, and `buf.toString ("utf8")` on decoded
   message bodies is represented by the byte sequence itself.
 - The external collaborators (`gmail.authorize` + `gmail.get_recent_email`,
   `gmail.get_email_attachments`, the Gmail send endpoint) are passed in as
   parameters: each poll iteration receives the `Except` outcome of that
   iteration's authorize+search, and attachment fetching is a function
   parameter.  `send` is modelled as returning its own request resource.
 - Thrown JavaScript errors are modelled with `Except JsErr`.
-/

/-- JavaScript strings, modelled as lists of characters. -/
abbrev JStr := List Char

/-- Embed a Lean string literal as a modelled JavaScript string. -/
def js (s : String) : JStr := s.data

/-- The whitespace characters recognised by JavaScript `String.prototype.trim`. -/
def jsWSChars : List Char :=
  [' ', '\t', '\n', '\r', Char.ofNat 11, Char.ofNat 12, Char.ofNat 160,
   Char.ofNat 0x1680, Char.ofNat 0x2000, Char.ofNat 0x2001, Char.ofNat 0x2002,
   Char.ofNat 0x2003, Char.ofNat 0x2004, Char.ofNat 0x2005, Char.ofNat 0x2006,
   Char.ofNat 0x2007, Char.ofNat 0x2008, Char.ofNat 0x2009, Char.ofNat 0x200A,
   Char.ofNat 0x2028, Char.ofNat 0x2029, Char.ofNat 0x202F, Char.ofNat 0x205F,
   Char.ofNat 0x3000, Char.ofNat 0xFEFF]

/-- Whether a character is JavaScript trim-whitespace. -/
def jsWS (c : Char) : Bool := jsWSChars.contains c

/-- Drop leading whitespace (the left half of JS `trim`). -/
def jsTrimLeft (s : JStr) : JStr := s.dropWhile jsWS

/-- Drop trailing whitespace (the right half of JS `trim`). -/
def jsTrimRight (s : JStr) : JStr := (s.reverse.dropWhile jsWS).reverse

/-- JavaScript `String.prototype.trim`. -/
def jsTrim (s : JStr) : JStr := jsTrimLeft (jsTrimRight s)

/-- Truthiness of a possibly-undefined JavaScript string: `undefined` and the
empty string are falsy, every other string is truthy. -/
def jsTruthyS : Option JStr → Bool
  | some (_ :: _) => true
  | _ => false

/-- JavaScript `a || b` on possibly-undefined strings. -/
def jsOrS (a b : Option JStr) : Option JStr := if jsTruthyS a then a else b

/-- JavaScript `+` on numbers where `none` models `undefined`/`NaN`:
any operation touching `NaN` yields `NaN`. -/
def jsAdd : Option Int → Option Int → Option Int
  | some a, some b => some (a + b)
  | _, _ => none

/-- JavaScript `>=` on numbers where `none` models `undefined`/`NaN`:
any comparison involving `NaN` is `false`. -/
def jsGe : Option Int → Option Int → Bool
  | some a, some b => decide (b ≤ a)
  | _, _ => false

/-- Decimal digits of a natural number, most significant first
(the digit part of JavaScript number-to-string). -/
def natToChars (n : Nat) : List Char :=
  if _h : n < 10 then [Nat.digitChar n]
  else natToChars (n / 10) ++ [Nat.digitChar (n % 10)]
termination_by n
decreasing_by exact Nat.div_lt_self (by omega) (by omega)

/-- JavaScript number-to-string for integers (template-literal interpolation). -/
def intToJStr (i : Int) : JStr :=
  if i < 0 then '-' :: natToChars i.natAbs else natToChars i.natAbs

/-- JavaScript `Math.round (ms / 1000)` for an integer millisecond count:
`Math.round x = ⌊x + 1/2⌋` (ties toward positive infinity). -/
def jsRound1000 (ms : Int) : Int := Int.fdiv (2 * ms + 1000) 2000

/-- The standard base64 alphabet, in sextet order. -/
def b64Alpha : List Char :=
  ("ABCDEFGHIJKLMNOPQRSTUVWXYZabcdefghijklmnopqrstuvwxyz0123456789+/").data

/-- The base64 character for a sextet (index into the alphabet). -/
def charOfSextet (s : Nat) : Char := b64Alpha.getD s 'A'

/-- Index of a character in a character list, if present. -/
def idxOfChar (c : Char) : List Char → Option Nat
  | [] => none
  | a :: rest => if a = c then some 0 else (idxOfChar c rest).map (· + 1)

/-- The sextet value of a base64 alphabet character (`none` for anything
outside the alphabet, including `=`). -/
def sextetOfChar (c : Char) : Option Nat := idxOfChar c b64Alpha

/-- Standard base64 encoding of a byte sequence, with `=` padding
(Node `buf.toString ("base64")`). -/
def b64encode : List Nat → List Char
  | b0 :: b1 :: b2 :: rest =>
      charOfSextet (b0 / 4) :: charOfSextet ((b0 % 4) * 16 + b1 / 16) ::
      charOfSextet ((b1 % 16) * 4 + b2 / 64) :: charOfSextet (b2 % 64) ::
      b64encode rest
  | [b0, b1] =>
      [charOfSextet (b0 / 4), charOfSextet ((b0 % 4) * 16 + b1 / 16),
       charOfSextet ((b1 % 16) * 4), '=']
  | [b0] =>
      [charOfSextet (b0 / 4), charOfSextet ((b0 % 4) * 16), '=', '=']
  | [] => []

/-- Reassemble bytes from a sextet sequence, with Node's lenient handling of a
trailing partial quantum (3 leftover sextets give 2 bytes, 2 give 1, 1 gives 0). -/
def b64quanta : List Nat → List Nat
  | s0 :: s1 :: s2 :: s3 :: rest =>
      (s0 * 4 + s1 / 16) :: ((s1 % 16) * 16 + s2 / 4) :: ((s2 % 4) * 64 + s3) ::
      b64quanta rest
  | [s0, s1, s2] => [s0 * 4 + s1 / 16, (s1 % 16) * 16 + s2 / 4]
  | [s0, s1] => [s0 * 4 + s1 / 16]
  | _ => []

/-- Node's lenient base64 decoding of a string into bytes
(`Buffer.from (s, "base64")`): non-alphabet characters, `=` included, are
skipped, then sextets are reassembled four at a time. -/
def b64decodeBytes (cs : JStr) : List Nat := b64quanta (cs.filterMap sextetOfChar)

/-- The forward URL-safe substitution `+ → -`, `/ → _` applied by
`reply_to_email` to the base64 encoding. -/
def replUrl (c : Char) : Char := if c = '+' then '-' else if c = '/' then '_' else c

/-- The reverse URL-safe substitution `- → +`, `_ → /`. -/
def replBackUrl (c : Char) : Char := if c = '-' then '+' else if c = '_' then '/' else c

/-- Strip the trailing run of `=` characters (`.replace (/=+$/, "")`). -/
def stripTrailEq (cs : JStr) : JStr := (cs.reverse.dropWhile (fun c => c = '=')).reverse

/-- Re-pad a base64 string to a multiple of four characters with `=`. -/
def repadB64 (cs : JStr) : JStr :=
  cs ++ List.replicate ((4 - cs.length % 4) % 4) '='

/-- UTF-8 encoding of a single character. -/
def utf8Char (c : Char) : List Nat :=
  let n := c.toNat
  if n < 0x80 then [n]
  else if n < 0x800 then [0xC0 + n / 64, 0x80 + n % 64]
  else if n < 0x10000 then [0xE0 + n / 4096, 0x80 + (n / 64) % 64, 0x80 + n % 64]
  else [0xF0 + n / 262144, 0x80 + (n / 4096) % 64, 0x80 + (n / 64) % 64, 0x80 + n % 64]

/-- UTF-8 encoding of a modelled JavaScript string (`Buffer.from (s)`). -/
def strBytes (s : JStr) : List Nat := (s.map utf8Char).flatten

/-- The whole `reply_to_email` encoding pipeline on a message string:
standard base64, then `+ → -`, `/ → _`, then trailing `=` stripped. -/
def rawEncode (s : JStr) : JStr := stripTrailEq ((b64encode (strBytes s)).map replUrl)

/-- Decoding of the URL-safe form as described by the specification: reverse
the character substitutions, re-pad, then base64-decode to bytes. -/
def b64urlDecode (cs : JStr) : List Nat := b64decodeBytes (repadB64 (cs.map replBackUrl))

deriving instance DecidableEq for Except

/-- A raw message header entry (`{name, value}`). -/
structure Header where
  name : JStr
  value : JStr
deriving DecidableEq

/-- The inline body record of a MIME payload or part (`{size, data}`); `data`
is a base64 string and may be absent. -/
structure PartBody where
  size : Nat
  data : Option JStr
deriving DecidableEq

/-- A MIME message part: a mime type, an optional inline body, and optional
nested parts. -/
inductive RawPart where
  | mk (mimeType : JStr) (body : Option PartBody) (parts : Option (List RawPart))

/-- The mime type of a part. -/
def RawPart.mimeType : RawPart → JStr
  | .mk m _ _ => m

/-- The inline body of a part. -/
def RawPart.body : RawPart → Option PartBody
  | .mk _ b _ => b

/-- The nested parts of a part (absent on leaves). -/
def RawPart.parts : RawPart → Option (List RawPart)
  | .mk _ _ ps => ps

/-- The payload of a raw Gmail message. -/
structure RawPayload where
  headers : List Header
  mimeType : JStr
  body : PartBody
  parts : Option (List RawPart)

/-- A raw Gmail message as returned by the search collaborator. -/
structure RawMsg where
  payload : RawPayload
  internalDate : Int
  threadId : Option JStr

/-- The decoded body of an email; `text` and `html` hold the bytes of the
base64-decoded content (initially empty strings). -/
structure EmailBody where
  html : List Nat
  text : List Nat
deriving DecidableEq

/-- Modelled from the spec: the `Attachment` record shape of section 3
(`{filename, mimeType, data}`).  Fetching attachments is done by the external
collaborator `gmail.get_email_attachments`, which is not part of this source
file; the operations below take the fetch outcome as a parameter. -/
structure Attachment where
  filename : JStr
  mimeType : JStr
  data : List Nat
deriving DecidableEq

/-- The normalised email record built by `_get_recent_email`.  Header-derived
fields are `Option` because the corresponding header may be absent
(JavaScript `undefined`). -/
structure Email where
  «from» : Option JStr
  subject : Option JStr
  receiver : Option JStr
  date : Int
  threadId : Option JStr
  messageId : Option JStr
  body : Option EmailBody := none
  attachments : Option (List Attachment) := none
deriving DecidableEq

/-- A thrown JavaScript error: either `new Error (msg)` or a `TypeError`
raised by the runtime. -/
inductive JsErr where
  | error (msg : String)
  | typeError (msg : String)
deriving DecidableEq

/-- The options record accepted by the public operations.  Unset fields are
`none` (JavaScript `undefined`); the boolean flags collapse undefined and
`false`, which are indistinguishable under truthiness tests. -/
structure CheckInboxOptions where
  «to» : Option JStr := none
  «from» : Option JStr := none
  subject : Option JStr := none
  after : Option Int := none
  before : Option Int := none
  label : Option JStr := none
  include_body : Bool := false
  include_attachments : Bool := false
  wait_time_sec : Option Int := none
  max_wait_time_sec : Option Int := none
deriving DecidableEq

/-- Value of a possibly-undefined string, defaulting to the empty string. -/
def getJStr (o : Option JStr) : JStr := o.getD []

/-- Translation of `_get_header`: case-sensitive first match on the header
name; yields `none` (undefined) when no header matches. -/
def _get_header (name : JStr) (headers : List Header) : Option JStr :=
  (headers.find? (fun h => h.name == name)).map Header.value

/-- Translation of `_init_query`: build the Gmail search query from the
options, one clause per truthy field in the fixed order
to, from, subject, after, before, then `trim` the result. -/
def _init_query (options : CheckInboxOptions) : JStr :=
  let q1 : JStr :=
    if jsTruthyS options.«to» then js ("to:\"") ++ getJStr options.«to» ++ js ("\" ") else []
  let q2 : JStr :=
    if jsTruthyS options.«from» then js ("from:\"") ++ getJStr options.«from» ++ js ("\" ") else []
  let q3 : JStr :=
    if jsTruthyS options.subject then js ("subject:(") ++ getJStr options.subject ++ js (") ") else []
  let q4 : JStr :=
    match options.after with
    | some ms => js ("after:") ++ intToJStr (jsRound1000 ms) ++ js (" ")
    | none => []
  let q5 : JStr :=
    match options.before with
    | some ms => js ("before:") ++ intToJStr (jsRound1000 ms) ++ js (" ")
    | none => []
  jsTrim (q1 ++ q2 ++ q3 ++ q4 ++ q5)

/-- Node `Buffer.from (data, "base64")`: a `TypeError` when `data` is
undefined, otherwise the lenient base64 decoding. -/
def bufferFromB64 : Option JStr → Except JsErr (List Nat)
  | none => .error (.typeError ("The first argument must be of type string or an instance of Buffer; received undefined"))
  | some s => .ok (b64decodeBytes s)

/-- One dequeue step of the multipart worklist: nested parts are appended to
the back of the queue (`parts = parts.concat (part.parts)`). -/
def queueStep (p : RawPart) (rest : List RawPart) : List RawPart :=
  match p.parts with
  | some ps => rest ++ ps
  | none => rest

theorem sizeOf_list_append {α : Type} [SizeOf α] (l1 l2 : List α) :
    sizeOf (l1 ++ l2) + 1 = sizeOf l1 + sizeOf l2 := by
  induction l1 with
  | nil => simp; omega
  | cons a t ih => simp at ih ⊢; omega

theorem sizeOf_queueStep (p : RawPart) (rest : List RawPart) :
    sizeOf (queueStep p rest) < sizeOf (p :: rest) := by
  cases p with
  | mk m b op =>
    cases op with
    | none =>
      simp [queueStep, RawPart.parts]
    | some ps =>
      have h1 := sizeOf_list_append rest ps
      simp [queueStep, RawPart.parts]
      omega

/-- Translation of the multipart while-loop of `_get_recent_email`
(lines 74-91): breadth-first worklist over the parts, decoding each
`text/plain` part into `text` and each `text/html` part into `html`,
later parts overwriting earlier ones. -/
def walkParts (eb : EmailBody) (queue : List RawPart) : Except JsErr EmailBody :=
  match queue with
  | [] => .ok eb
  | p :: rest =>
    if p.mimeType = js ("text/plain") then
      match p.body with
      | none => .error (.typeError ("Cannot read properties of undefined (reading 'data')"))
      | some b =>
        match bufferFromB64 b.data with
        | .error e => .error e
        | .ok bytes => walkParts { eb with text := bytes } (queueStep p rest)
    else if p.mimeType = js ("text/html") then
      match p.body with
      | none => .error (.typeError ("Cannot read properties of undefined (reading 'data')"))
      | some b =>
        match bufferFromB64 b.data with
        | .error e => .error e
        | .ok bytes => walkParts { eb with html := bytes } (queueStep p rest)
    else walkParts eb (queueStep p rest)
termination_by sizeOf queue
decreasing_by
  all_goals exact sizeOf_queueStep p rest

/-- The sequence of parts visited by the worklist loop of `walkParts`, in
visit order (the breadth-first order of the tree). -/
def bfsSeq (queue : List RawPart) : List RawPart :=
  match queue with
  | [] => []
  | p :: rest => p :: bfsSeq (queueStep p rest)
termination_by sizeOf queue
decreasing_by
  exact sizeOf_queueStep p rest

/-- Translation of the body-extraction branch of `_get_recent_email`
(lines 57-92): a non-empty top-level inline body is decoded directly
(`text/html` into `html`, anything else into `text`); otherwise the multipart
worklist runs over `payload.parts`, which throws a `TypeError` when that
field is absent. -/
def decodeBody (m : RawMsg) : Except JsErr EmailBody :=
  let emailBody : EmailBody := { html := [], text := [] }
  if m.payload.body.size ≠ 0 then
    match bufferFromB64 m.payload.body.data with
    | .error e => .error e
    | .ok bytes =>
      if m.payload.mimeType = js ("text/html") then .ok { emailBody with html := bytes }
      else .ok { emailBody with text := bytes }
  else
    match m.payload.parts with
    | none => .error (.typeError ("gmail_email.payload.parts is not iterable"))
    | some ps => walkParts emailBody ps

/-- Translation of the per-message body of the loop in `_get_recent_email`
(lines 45-103): header extraction, then the body when `include_body` is set,
then the attachments when `include_attachments` is set. -/
def decodeOne (fetchAtt : RawMsg → Except JsErr (List Attachment))
    (options : CheckInboxOptions) (m : RawMsg) : Except JsErr Email :=
  let email : Email :=
    { «from» := _get_header (js ("From")) m.payload.headers
      subject := _get_header (js ("Subject")) m.payload.headers
      receiver := _get_header (js ("Delivered-To")) m.payload.headers
      date := m.internalDate
      threadId := m.threadId
      messageId := jsOrS (_get_header (js ("Message-ID")) m.payload.headers)
        (_get_header (js ("Message-Id")) m.payload.headers) }
  let step1 : Except JsErr Email :=
    if options.include_body then
      match decodeBody m with
      | .error e => .error e
      | .ok eb => .ok { email with body := some eb }
    else .ok email
  match step1 with
  | .error e => .error e
  | .ok e1 =>
    if options.include_attachments then
      match fetchAtt m with
      | .error e => .error e
      | .ok atts => .ok { e1 with attachments := some atts }
    else .ok e1

/-- The `for…of` loop of `_get_recent_email`: messages are decoded in order
and the first thrown error aborts the whole call. -/
def decodeAll (f : RawMsg → Except JsErr Email) : List RawMsg → Except JsErr (List Email)
  | [] => .ok []
  | m :: ms =>
    match f m with
    | .error e => .error e
    | .ok e =>
      match decodeAll f ms with
      | .error err => .error err
      | .ok rest => .ok (e :: rest)

/-- Translation of `_get_recent_email`.  `gmail.authorize` and
`gmail.get_recent_email` are external collaborators; the combined outcome of
this call's authorize+search is the `searchResult` parameter.  The query
string built by `_init_query` is consumed only by that collaborator and is
studied separately. -/
def _get_recent_email (fetchAtt : RawMsg → Except JsErr (List Attachment))
    (searchResult : Except JsErr (List RawMsg)) (options : CheckInboxOptions) :
    Except JsErr (List Email) :=
  match searchResult with
  | .error e => .error e
  | .ok raws => decodeAll (decodeOne fetchAtt options) raws

/-- Outcome of the polling loop: a found batch, the `null` return after the
waiting budget is exhausted, a propagated error (the `catch` in
`__check_inbox` logs and rethrows the same error), or the model artifact of
the supplied stream of search outcomes ending before the loop does. -/
inductive PollResult where
  | found (emails : List Email)
  | timedOut
  | threw (e : JsErr)
  | exhausted
deriving DecidableEq

/-- Translation of the do-while loop of `__check_inbox` (lines 116-132).
`calls` supplies the outcome of each successive authorize+search; the `Nat`
component counts the executed `setTimeout` sleeps.  An empty result batch
adds `wait_time_sec` to `done_waiting_time`; the loop stops with `timedOut`
(returning null) when the accumulated value reaches `max_wait_time_sec`, and
otherwise sleeps once and polls again. -/
def pollLoop (fetchAtt : RawMsg → Except JsErr (List Attachment))
    (options : CheckInboxOptions) (done_waiting_time : Option Int) :
    List (Except JsErr (List RawMsg)) → PollResult × Nat
  | [] => (.exhausted, 0)
  | call :: rest =>
    match _get_recent_email fetchAtt call options with
    | .error e => (.threw e, 0)
    | .ok emails =>
      if emails.length > 0 then (.found emails, 0)
      else
        let done2 := jsAdd done_waiting_time options.wait_time_sec
        if jsGe done2 options.max_wait_time_sec then (.timedOut, 0)
        else
          let r := pollLoop fetchAtt options done2 rest
          (r.1, r.2 + 1)

/-- Translation of `__check_inbox`: the loop starts with
`done_waiting_time = 0`; the surrounding `catch` logs and rethrows the same
error, so errors pass through unchanged. -/
def __check_inbox (fetchAtt : RawMsg → Except JsErr (List Attachment))
    (calls : List (Except JsErr (List RawMsg))) (options : CheckInboxOptions) :
    PollResult × Nat :=
  pollLoop fetchAtt options (some 0) calls

/-- The default options object of `check_inbox` (lines 159-167), used only
when the caller omits the argument entirely. -/
def check_inbox_default_options : CheckInboxOptions :=
  { subject := none
    «from» := none
    «to» := none
    wait_time_sec := some 30
    max_wait_time_sec := some 30
    include_body := false
    label := some (js ("INBOX")) }

/-- Translation of `check_inbox`: `none` models an omitted options argument,
replaced by the default object; any passed object is forwarded unchanged. -/
def check_inbox (fetchAtt : RawMsg → Except JsErr (List Attachment))
    (calls : List (Except JsErr (List RawMsg))) (options : Option CheckInboxOptions) :
    PollResult × Nat :=
  __check_inbox fetchAtt calls (options.getD check_inbox_default_options)

/-- Translation of `get_messages`: the underlying call is wrapped in a
try/catch that logs and does not rethrow, so a failure yields `undefined`
(`none`) instead of an error. -/
def get_messages (fetchAtt : RawMsg → Except JsErr (List Attachment))
    (searchResult : Except JsErr (List RawMsg)) (options : CheckInboxOptions) :
    Option (List Email) :=
  match _get_recent_email fetchAtt searchResult options with
  | .error _ => none
  | .ok emails => some emails

/-- The test `/^Re:/i.test (s)` of `reply_to_email`. -/
def startsWithReI : JStr → Bool
  | r :: e :: c :: _ => (r == 'R' || r == 'r') && (e == 'E' || e == 'e') && c == ':'
  | _ => false

/-- The reply subject: prefix `"Re: "` unless the subject already starts with
`Re:` case-insensitively. -/
def replySubjectOf (originalSubject : JStr) : JStr :=
  if startsWithReI originalSubject then originalSubject
  else js ("Re: ") ++ originalSubject

/-- The header and body lines of the raw reply document (lines 287-306):
threading headers are included only when a message id was recovered. -/
def buildReplyLines (originalFrom replySubject originalMessageId replyContent : JStr) :
    List JStr :=
  [js ("From: me"), js ("To: ") ++ originalFrom, js ("Subject: ") ++ replySubject]
  ++ (if originalMessageId ≠ [] then
        [js ("In-Reply-To: ") ++ originalMessageId, js ("References: ") ++ originalMessageId]
      else [])
  ++ [[], replyContent]

/-- Join string lines with a separator character (`Array.prototype.join`). -/
def joinSep (sep : Char) : List JStr → JStr
  | [] => []
  | [l] => l
  | l :: rest => l ++ sep :: joinSep sep rest

/-- The request resource handed to the Gmail send endpoint; `send` itself is
an external collaborator and is modelled as returning its resource. -/
structure SendRequest where
  raw : JStr
  threadId : JStr
deriving DecidableEq

/-- Translation of `reply_to_email` (lines 248-330): one-shot search+decode,
`NotFound` error on an empty result list, truthiness validation of the first
result's from/subject/threadId, subject rewriting, document construction and
URL-safe base64 encoding. -/
def reply_to_email (fetchAtt : RawMsg → Except JsErr (List Attachment))
    (searchResult : Except JsErr (List RawMsg)) (replyContent : JStr)
    (options : CheckInboxOptions) : Except JsErr SendRequest :=
  match _get_recent_email fetchAtt searchResult options with
  | .error e => .error e
  | .ok emails =>
    match emails with
    | [] => .error (.error ("No email found matching the provided criteria."))
    | originalEmail :: _ =>
      let originalMessageId : JStr := getJStr (jsOrS originalEmail.messageId (some []))
      if jsTruthyS originalEmail.«from» && jsTruthyS originalEmail.subject
          && jsTruthyS originalEmail.threadId then
        let originalFrom := getJStr originalEmail.«from»
        let originalSubject := getJStr originalEmail.subject
        let threadId := getJStr originalEmail.threadId
        let replyMessage := joinSep '\n'
          (buildReplyLines originalFrom (replySubjectOf originalSubject)
            originalMessageId replyContent)
        .ok { raw := rawEncode replyMessage, threadId := threadId }
      else .error (.error ("Missing required information from the original email."))

/-- Clauses of the search query as the specification words them: one clause
per set field, in the fixed order to, from, subject, after, before. -/
def specClauses (options : CheckInboxOptions) : List JStr :=
  (if jsTruthyS options.«to» then [js ("to:\"") ++ getJStr options.«to» ++ js ("\"")] else [])
  ++ (if jsTruthyS options.«from» then [js ("from:\"") ++ getJStr options.«from» ++ js ("\"")] else [])
  ++ (if jsTruthyS options.subject then [js ("subject:(") ++ getJStr options.subject ++ js (")")] else [])
  ++ (match options.after with
      | some ms => [js ("after:") ++ intToJStr (jsRound1000 ms)]
      | none => [])
  ++ (match options.before with
      | some ms => [js ("before:") ++ intToJStr (jsRound1000 ms)]
      | none => [])

/-- The query as the specification words it: the clauses for the set fields,
space-joined, with no leading or trailing whitespace. -/
def specQuery (options : CheckInboxOptions) : JStr := joinSep ' ' (specClauses options)

/-- Sample headers for concrete runs: a From and a Subject header. -/
def sampleHeaders : List Header :=
  [{ name := js ("From"), value := js ("a@b.c") },
   { name := js ("Subject"), value := js ("Hi") }]

/-- A single-part raw message with a non-empty inline `text/plain` body. -/
def sampleRaw : RawMsg :=
  { payload :=
      { headers := sampleHeaders
        mimeType := js ("text/plain")
        body := { size := 5, data := some (js ("aGVsbG8=")) }
        parts := none }
    internalDate := 1000
    threadId := some (js ("t1")) }

/-- The decode of `sampleRaw` when neither body nor attachments are requested. -/
def sampleEmail : Email :=
  { «from» := some (js ("a@b.c"))
    subject := some (js ("Hi"))
    receiver := none
    date := 1000
    threadId := some (js ("t1"))
    messageId := none }

/-- An attachment fetcher that always succeeds with no attachments. -/
def noAtt : RawMsg → Except JsErr (List Attachment) := fun _ => .ok []

/-- A `text/plain` leaf part whose base64 body decodes to `hello`. -/
def plainLeaf : RawPart :=
  .mk (js ("text/plain")) (some { size := 5, data := some (js ("aGVsbG8=")) }) none

/-- A `text/html` leaf part whose base64 body decodes to `<b>`. -/
def htmlLeaf : RawPart :=
  .mk (js ("text/html")) (some { size := 3, data := some (js ("PGI+")) }) none

/-- A `multipart/alternative` container holding the two leaves. -/
def altPart : RawPart :=
  .mk (js ("multipart/alternative")) none (some [plainLeaf, htmlLeaf])

/-- A nested multipart message: `multipart/mixed` containing a
`multipart/alternative` that holds one `text/plain` and one `text/html` leaf. -/
def nestedRaw : RawMsg :=
  { payload :=
      { headers := sampleHeaders
        mimeType := js ("multipart/mixed")
        body := { size := 0, data := none }
        parts := some [altPart] }
    internalDate := 1000
    threadId := some (js ("t1")) }

/-- A message whose top-level body is empty but whose payload carries no
`parts` sequence at all. -/
def noPartsRaw : RawMsg :=
  { payload :=
      { headers := sampleHeaders
        mimeType := js ("multipart/mixed")
        body := { size := 0, data := none }
        parts := none }
    internalDate := 1000
    threadId := some (js ("t1")) }

/-- Running the poll loop over `k` empty search results whose accumulated
waiting time stays strictly under the budget just adds `k` sleeps and carries
the accumulated `done_waiting_time` into the remaining calls. -/
theorem pollLoop_empty_run
    (f : RawMsg → Except JsErr (List Attachment)) (opts : CheckInboxOptions)
    (w m : Int) (hw : opts.wait_time_sec = some w) (hm : opts.max_wait_time_sec = some m)
    (hw0 : 0 ≤ w) :
    ∀ (k : Nat) (d : Int) (rest : List (Except JsErr (List RawMsg))),
      d + (k : Int) * w < m →
      pollLoop f opts (some d) (List.replicate k (Except.ok []) ++ rest)
        = ((pollLoop f opts (some (d + (k : Int) * w)) rest).1,
           (pollLoop f opts (some (d + (k : Int) * w)) rest).2 + k) := by
  intro k
  induction k with
  | zero =>
    intro d rest _h
    simp
  | succ n ih =>
    intro d rest hk
    have hnw : (0 : Int) ≤ (n : Int) * w := mul_nonneg (by positivity) hw0
    have hstep : ¬ (m ≤ d + w) := by
      push_cast at hk
      intro hc
      nlinarith
    have hk2 : (d + w) + (n : Int) * w < m := by
      push_cast at hk
      nlinarith
    have harith : (d + w) + (n : Int) * w = d + ((n : Nat) + 1 : Nat) * w := by
      push_cast
      ring
    rw [List.replicate_succ, List.cons_append]
    simp only [pollLoop, _get_recent_email, decodeAll, List.length_nil, gt_iff_lt,
      lt_self_iff_false, if_false, jsAdd, hw, hm, jsGe]
    rw [if_neg (by simpa using hstep)]
    rw [ih (d + w) rest hk2, harith]
    simp [Nat.add_assoc]

/-- C1: Poller sleep/timeout semantics.  With a search returning empty twice
then non-empty, `wait_time_sec = 1` and `max_wait_time_sec = 10`, the call
returns the non-empty batch after exactly two sleeps; with an always-empty
search, `wait_time_sec = 5` and `max_wait_time_sec = 12`, the call returns
null (timed out) after exactly two sleeps; and in general an always-empty
prefix exhausts the budget exactly when the accumulated intervals reach
`max_wait_time_sec`, returning null after `n - 1` sleeps where `n` is the
least number of intervals reaching the maximum. -/
theorem c1_poller_sleep_semantics :
    (__check_inbox noAtt [Except.ok [], Except.ok [], Except.ok [sampleRaw]]
        { wait_time_sec := some 1, max_wait_time_sec := some 10 }
      = (PollResult.found [sampleEmail], 2))
    ∧ (__check_inbox noAtt [Except.ok [], Except.ok [], Except.ok [], Except.ok []]
        { wait_time_sec := some 5, max_wait_time_sec := some 12 }
      = (PollResult.timedOut, 2))
    ∧ (∀ (f : RawMsg → Except JsErr (List Attachment)) (opts : CheckInboxOptions)
        (w m : Int) (n : Nat) (rest : List (Except JsErr (List RawMsg))),
        opts.wait_time_sec = some w → opts.max_wait_time_sec = some m →
        0 ≤ w → 0 < n → m ≤ (n : Int) * w → ((n : Int) - 1) * w < m →
        __check_inbox f (List.replicate n (Except.ok []) ++ rest) opts
          = (PollResult.timedOut, n - 1)) := by
  refine ⟨by decide, by decide, ?_⟩
  intro f opts w m n rest hw hm hw0 hn hmax hprev
  obtain ⟨k, rfl⟩ : ∃ k, n = k + 1 := ⟨n - 1, by omega⟩
  unfold __check_inbox
  rw [List.replicate_succ', List.append_assoc]
  have hk : (0 : Int) + (k : Int) * w < m := by
    push_cast at hprev
    linarith
  rw [pollLoop_empty_run f opts w m hw hm hw0 k 0 ([Except.ok []] ++ rest) hk]
  have hge : m ≤ (0 + (k : Int) * w) + w := by
    push_cast at hmax
    linarith
  simp only [List.singleton_append, pollLoop, _get_recent_email, decodeAll,
    List.length_nil, gt_iff_lt, lt_self_iff_false, if_false, jsAdd, hw, hm, jsGe]
  rw [if_pos (by simpa using hge)]
  simp

/-- C1 witness: the general timeout statement applied at interval 5 and
maximum 12 over three empty searches. -/
theorem c1_poller_sleep_semantics_witness :
    __check_inbox noAtt (List.replicate 3 (Except.ok []) ++ [Except.ok []])
      { wait_time_sec := some 5, max_wait_time_sec := some 12 }
      = (PollResult.timedOut, 2) :=
  c1_poller_sleep_semantics.2.2 noAtt
    { wait_time_sec := some 5, max_wait_time_sec := some 12 }
    5 12 3 [Except.ok []] rfl rfl (by norm_num) (by norm_num) (by norm_num) (by norm_num)

/-- C3: `get_messages` is the only public operation that suppresses failure:
whenever the underlying search/decode raises an error, `get_messages` returns
undefined instead of rethrowing, while the very same failure propagates
unchanged out of `check_inbox` (and out of `reply_to_email`). -/
theorem c3_get_messages_suppresses :
    ∀ (f : RawMsg → Except JsErr (List Attachment))
      (call : Except JsErr (List RawMsg)) (opts : CheckInboxOptions) (e : JsErr),
      _get_recent_email f call opts = .error e →
      get_messages f call opts = none
      ∧ __check_inbox f [call] opts = (PollResult.threw e, 0)
      ∧ check_inbox f [call] (some opts) = (PollResult.threw e, 0)
      ∧ (∀ content, reply_to_email f call content opts = .error e) := by
  intro f call opts e h
  refine ⟨?_, ?_, ?_, ?_⟩ <;>
    simp [get_messages, __check_inbox, check_inbox, pollLoop, reply_to_email, h]

/-- C3 witness: a failing authorize/search with all-default options. -/
theorem c3_get_messages_suppresses_witness :
    get_messages noAtt (Except.error (JsErr.error ("auth failed"))) {} = none
    ∧ __check_inbox noAtt [Except.error (JsErr.error ("auth failed"))] {}
        = (PollResult.threw (JsErr.error ("auth failed")), 0)
    ∧ check_inbox noAtt [Except.error (JsErr.error ("auth failed"))] (some {})
        = (PollResult.threw (JsErr.error ("auth failed")), 0)
    ∧ (∀ content, reply_to_email noAtt (Except.error (JsErr.error ("auth failed"))) content {}
        = .error (JsErr.error ("auth failed"))) :=
  c3_get_messages_suppresses noAtt _ {} _ rfl

/-- C4: the Poller never retries an error.  An iteration whose search or
decode throws terminates the loop at once with that very error and no extra
sleep, also after any number of under-budget empty iterations; and only an
empty result batch leads to another iteration, a non-empty batch returning
immediately. -/
theorem c4_poller_never_retries_errors :
    (∀ (f : RawMsg → Except JsErr (List Attachment)) (opts : CheckInboxOptions)
        (done : Option Int) (call : Except JsErr (List RawMsg)) (e : JsErr) rest,
        _get_recent_email f call opts = .error e →
        pollLoop f opts done (call :: rest) = (PollResult.threw e, 0))
    ∧ (∀ (f : RawMsg → Except JsErr (List Attachment)) (opts : CheckInboxOptions)
        (w m : Int) (k : Nat) (call : Except JsErr (List RawMsg)) (e : JsErr) rest,
        opts.wait_time_sec = some w → opts.max_wait_time_sec = some m →
        0 ≤ w → (0 : Int) + (k : Int) * w < m →
        _get_recent_email f call opts = .error e →
        __check_inbox f (List.replicate k (Except.ok []) ++ call :: rest) opts
          = (PollResult.threw e, k))
    ∧ (∀ (f : RawMsg → Except JsErr (List Attachment)) (opts : CheckInboxOptions)
        (done : Option Int) (emails : List Email) (call : Except JsErr (List RawMsg)) rest,
        _get_recent_email f call opts = .ok emails → emails ≠ [] →
        pollLoop f opts done (call :: rest) = (PollResult.found emails, 0)) := by
  refine ⟨?_, ?_, ?_⟩
  · intro f opts done call e rest h
    simp [pollLoop, h]
  · intro f opts w m k call e rest hw hm hw0 hk herr
    unfold __check_inbox
    rw [pollLoop_empty_run f opts w m hw hm hw0 k 0 (call :: rest) hk]
    simp [pollLoop, herr]
  · intro f opts done emails call rest h hne
    simp [pollLoop, h, List.length_pos.mpr hne]

/-- C4 witness: one under-budget empty iteration followed by a failing
search aborts with that error after a single sleep. -/
theorem c4_poller_never_retries_errors_witness :
    __check_inbox noAtt
      (List.replicate 1 (Except.ok []) ++ Except.error (JsErr.error ("boom")) :: [])
      { wait_time_sec := some 5, max_wait_time_sec := some 12 }
      = (PollResult.threw (JsErr.error ("boom")), 1) :=
  c4_poller_never_retries_errors.2.1 noAtt
    { wait_time_sec := some 5, max_wait_time_sec := some 12 }
    5 12 1 (Except.error (JsErr.error ("boom"))) (JsErr.error ("boom")) []
    rfl rfl (by norm_num) (by norm_num) rfl

/-- C9: the documented defaults (interval 30, maximum 30, label INBOX) take
effect only when the options argument is omitted entirely; any passed options
object reaches the poller unchanged, so fields the caller did not set stay
undefined — in particular an options object carrying only a subject filter
has an undefined interval and undefined maximum wait. -/
theorem c9_defaults_only_when_omitted :
    (∀ (f : RawMsg → Except JsErr (List Attachment)) calls,
        check_inbox f calls none = __check_inbox f calls check_inbox_default_options)
    ∧ check_inbox_default_options.wait_time_sec = some 30
    ∧ check_inbox_default_options.max_wait_time_sec = some 30
    ∧ check_inbox_default_options.label = some (js ("INBOX"))
    ∧ (∀ (f : RawMsg → Except JsErr (List Attachment)) calls (opts : CheckInboxOptions),
        check_inbox f calls (some opts) = __check_inbox f calls opts)
    ∧ (∀ s : JStr, ({ subject := some s } : CheckInboxOptions).wait_time_sec = none
        ∧ ({ subject := some s } : CheckInboxOptions).max_wait_time_sec = none) :=
  ⟨fun _ _ => rfl, rfl, rfl, rfl, fun _ _ _ => rfl, fun _ => ⟨rfl, rfl⟩⟩

/-- Decoding a list that contains a message whose decode throws makes the
whole `for` loop of `_get_recent_email` throw. -/
theorem decodeAll_error_of_mem (g : RawMsg → Except JsErr Email) :
    ∀ (raws : List RawMsg) (mm : RawMsg), mm ∈ raws → (∃ e, g mm = .error e) →
      ∃ e2, decodeAll g raws = .error e2 := by
  intro raws
  induction raws with
  | nil =>
    intro mm h
    simp at h
  | cons a t ih =>
    intro mm hmem hge
    obtain ⟨e, he⟩ := hge
    cases hga : g a with
    | error e2 => exact ⟨e2, by simp [decodeAll, hga]⟩
    | ok e2 =>
      have hmt : mm ∈ t := by
        rcases List.mem_cons.mp hmem with h1 | h1
        · rw [h1] at he
          rw [he] at hga
          cases hga
        · exact h1
      obtain ⟨e3, he3⟩ := ih mm hmt ⟨e, he⟩
      exact ⟨e3, by simp [decodeAll, hga, he3]⟩

/-- C10: with `include_body` requested, a raw message whose top-level body is
empty (size 0) and whose payload has no `parts` sequence makes the decoder
throw a `TypeError` (the multipart walk dereferences the absent sequence);
consequently no public operation returns an Email with an empty body for such
a message — `check_inbox` and `reply_to_email` throw and `get_messages`
returns undefined. -/
theorem c10_missing_parts_throws :
    ∀ (f : RawMsg → Except JsErr (List Attachment)) (raw : RawMsg)
      (opts : CheckInboxOptions),
      opts.include_body = true → raw.payload.body.size = 0 → raw.payload.parts = none →
      decodeOne f opts raw
          = .error (.typeError ("gmail_email.payload.parts is not iterable"))
      ∧ (∀ raws, raw ∈ raws → ∃ e, _get_recent_email f (.ok raws) opts = .error e)
      ∧ get_messages f (.ok [raw]) opts = none
      ∧ (∃ e, __check_inbox f [.ok [raw]] opts = (PollResult.threw e, 0))
      ∧ (∀ content, ∃ e, reply_to_email f (.ok [raw]) content opts = .error e) := by
  intro f raw opts hb hsize hparts
  have hdec : decodeOne f opts raw
      = .error (.typeError ("gmail_email.payload.parts is not iterable")) := by
    simp [decodeOne, decodeBody, hb, hsize, hparts]
  have hall : ∀ raws, raw ∈ raws → ∃ e, _get_recent_email f (.ok raws) opts = .error e := by
    intro raws hmem
    obtain ⟨e, he⟩ :=
      decodeAll_error_of_mem (decodeOne f opts) raws raw hmem ⟨_, hdec⟩
    exact ⟨e, by simp [_get_recent_email, he]⟩
  obtain ⟨e1, he1⟩ := hall [raw] (by simp)
  refine ⟨hdec, hall, ?_, ⟨e1, ?_⟩, ?_⟩
  · simp [get_messages, he1]
  · simp [__check_inbox, pollLoop, he1]
  · intro content
    exact ⟨e1, by simp [reply_to_email, he1]⟩

/-- C10 witness: the concrete empty-body, missing-parts message with
`include_body` set. -/
theorem c10_missing_parts_throws_witness :
    decodeOne noAtt { include_body := true } noPartsRaw
        = .error (.typeError ("gmail_email.payload.parts is not iterable"))
    ∧ (∀ raws, noPartsRaw ∈ raws →
        ∃ e, _get_recent_email noAtt (.ok raws) { include_body := true } = .error e)
    ∧ get_messages noAtt (.ok [noPartsRaw]) { include_body := true } = none
    ∧ (∃ e, __check_inbox noAtt [.ok [noPartsRaw]] { include_body := true }
        = (PollResult.threw e, 0))
    ∧ (∀ content, ∃ e,
        reply_to_email noAtt (.ok [noPartsRaw]) content { include_body := true }
          = .error e) :=
  c10_missing_parts_throws noAtt noPartsRaw { include_body := true } rfl rfl rfl

/-- A decoded email carries a body exactly when `include_body` was set and
attachments exactly when `include_attachments` was set. -/
theorem decodeOne_flags (f : RawMsg → Except JsErr (List Attachment))
    (opts : CheckInboxOptions) (m : RawMsg) (e : Email)
    (h : decodeOne f opts m = .ok e) :
    e.body.isSome = opts.include_body
      ∧ e.attachments.isSome = opts.include_attachments := by
  unfold decodeOne at h
  cases hb : opts.include_body with
  | false =>
    simp only [hb, if_false, Bool.false_eq_true] at h
    cases ha : opts.include_attachments with
    | false =>
      simp only [ha, if_false, Bool.false_eq_true] at h
      cases h
      exact ⟨rfl, rfl⟩
    | true =>
      simp only [ha, if_true] at h
      cases hf : f m with
      | error e2 => rw [hf] at h; cases h
      | ok atts => rw [hf] at h; cases h; exact ⟨rfl, rfl⟩
  | true =>
    simp only [hb, if_true] at h
    cases hdb : decodeBody m with
    | error e2 => rw [hdb] at h; cases h
    | ok eb =>
      rw [hdb] at h
      cases ha : opts.include_attachments with
      | false =>
        simp only [ha, if_false, Bool.false_eq_true] at h
        cases h
        exact ⟨rfl, rfl⟩
      | true =>
        simp only [ha, if_true] at h
        cases hf : f m with
        | error e2 => rw [hf] at h; cases h
        | ok atts => rw [hf] at h; cases h; exact ⟨rfl, rfl⟩

/-- Every email in a successful decode run comes from decoding some message
of the searched batch. -/
theorem decodeAll_mem_ok (g : RawMsg → Except JsErr Email) :
    ∀ (raws : List RawMsg) (emails : List Email),
      decodeAll g raws = .ok emails →
      ∀ e ∈ emails, ∃ mm, mm ∈ raws ∧ g mm = .ok e := by
  intro raws
  induction raws with
  | nil =>
    intro emails h e he
    simp [decodeAll] at h
    rw [h] at he
    simp at he
  | cons a t ih =>
    intro emails h e he
    unfold decodeAll at h
    cases hga : g a with
    | error e2 => rw [hga] at h; cases h
    | ok e1 =>
      rw [hga] at h
      dsimp only at h
      cases hdt : decodeAll g t with
      | error e2 => rw [hdt] at h; cases h
      | ok rest =>
        rw [hdt] at h
        dsimp only at h
        cases h
        rcases List.mem_cons.mp he with h1 | h1
        · exact ⟨a, by simp, by rw [hga, h1]⟩
        · obtain ⟨mm, hm1, hm2⟩ := ih rest hdt e h1
          exact ⟨mm, List.mem_cons_of_mem _ hm1, hm2⟩

/-- A found batch of the poll loop is the successful decode of one of the
supplied search calls. -/
theorem pollLoop_found_src (f : RawMsg → Except JsErr (List Attachment))
    (opts : CheckInboxOptions) :
    ∀ (calls : List (Except JsErr (List RawMsg))) (done : Option Int)
      (emails : List Email) (n : Nat),
      pollLoop f opts done calls = (PollResult.found emails, n) →
      ∃ call, call ∈ calls ∧ _get_recent_email f call opts = .ok emails := by
  intro calls
  induction calls with
  | nil =>
    intro done emails n h
    simp [pollLoop] at h
  | cons call rest ih =>
    intro done emails n h
    rw [pollLoop] at h
    cases hg : _get_recent_email f call opts with
    | error e =>
      rw [hg] at h
      simp at h
    | ok ems =>
      rw [hg] at h
      dsimp only at h
      by_cases hlen : ems.length > 0
      · rw [if_pos hlen] at h
        have h1 : ems = emails := by
          have := congrArg Prod.fst h
          simpa using this
        exact ⟨call, by simp, by rw [hg, h1]⟩
      · rw [if_neg hlen] at h
        by_cases hge : jsGe (jsAdd done opts.wait_time_sec) opts.max_wait_time_sec
        · rw [if_pos hge] at h
          simp at h
        · rw [if_neg hge] at h
          have h1 : (pollLoop f opts (jsAdd done opts.wait_time_sec) rest).1
              = PollResult.found emails := by
            have := congrArg Prod.fst h
            simpa using this
          have hp : pollLoop f opts (jsAdd done opts.wait_time_sec) rest
              = (PollResult.found emails,
                 (pollLoop f opts (jsAdd done opts.wait_time_sec) rest).2) := by
            rw [← h1]
          obtain ⟨c, hc1, hc2⟩ := ih (jsAdd done opts.wait_time_sec) emails _ hp
          exact ⟨c, List.mem_cons_of_mem _ hc1, hc2⟩

/-- C8: for every Email produced by the decode pipeline — and hence by
`check_inbox` (through its found batch) and `get_messages` — the `body` field
is present iff `include_body` was set and `attachments` is present iff
`include_attachments` was set; every other field of the `Email` record is
always present. -/
theorem c8_body_attachments_presence :
    (∀ (f : RawMsg → Except JsErr (List Attachment)) sr (opts : CheckInboxOptions) emails,
        _get_recent_email f sr opts = .ok emails →
        ∀ e ∈ emails, e.body.isSome = opts.include_body
          ∧ e.attachments.isSome = opts.include_attachments)
    ∧ (∀ (f : RawMsg → Except JsErr (List Attachment)) sr (opts : CheckInboxOptions) emails,
        get_messages f sr opts = some emails →
        ∀ e ∈ emails, e.body.isSome = opts.include_body
          ∧ e.attachments.isSome = opts.include_attachments)
    ∧ (∀ (f : RawMsg → Except JsErr (List Attachment)) calls
        (o : Option CheckInboxOptions) emails n,
        check_inbox f calls o = (PollResult.found emails, n) →
        ∀ e ∈ emails,
          e.body.isSome = (o.getD check_inbox_default_options).include_body
          ∧ e.attachments.isSome = (o.getD check_inbox_default_options).include_attachments) := by
  have main : ∀ (f : RawMsg → Except JsErr (List Attachment)) sr
      (opts : CheckInboxOptions) emails,
      _get_recent_email f sr opts = .ok emails →
      ∀ e ∈ emails, e.body.isSome = opts.include_body
        ∧ e.attachments.isSome = opts.include_attachments := by
    intro f sr opts emails h e he
    unfold _get_recent_email at h
    cases sr with
    | error err => cases h
    | ok raws =>
      obtain ⟨mm, _, hmm⟩ := decodeAll_mem_ok (decodeOne f opts) raws emails h e he
      exact decodeOne_flags f opts mm e hmm
  refine ⟨main, ?_, ?_⟩
  · intro f sr opts emails h
    unfold get_messages at h
    cases hg : _get_recent_email f sr opts with
    | error err => rw [hg] at h; cases h
    | ok ems =>
      rw [hg] at h
      dsimp only at h
      cases h
      exact main f sr opts _ hg
  · intro f calls o emails n h
    obtain ⟨call, _, hc⟩ :=
      pollLoop_found_src f (o.getD check_inbox_default_options) calls (some 0) emails n h
    exact main f call (o.getD check_inbox_default_options) emails hc

/-- C8 witness: a concrete decode without flags yields an email with neither
body nor attachments. -/
theorem c8_body_attachments_presence_witness :
    sampleEmail.body.isSome = ({} : CheckInboxOptions).include_body
    ∧ sampleEmail.attachments.isSome = ({} : CheckInboxOptions).include_attachments :=
  c8_body_attachments_presence.1 noAtt (.ok [sampleRaw]) {} [sampleEmail]
    (by decide) sampleEmail (by simp)

/-- The header-only part of a decoded email (what `_get_recent_email` builds
before the optional body and attachments). -/
def headerEmail (m : RawMsg) : Email :=
  { «from» := _get_header (js ("From")) m.payload.headers
    subject := _get_header (js ("Subject")) m.payload.headers
    receiver := _get_header (js ("Delivered-To")) m.payload.headers
    date := m.internalDate
    threadId := m.threadId
    messageId := jsOrS (_get_header (js ("Message-ID")) m.payload.headers)
      (_get_header (js ("Message-Id")) m.payload.headers) }

/-- With both flags unset, decoding a message never throws and yields exactly
its header record. -/
theorem decodeOne_plain (f : RawMsg → Except JsErr (List Attachment))
    (opts : CheckInboxOptions) (hb : opts.include_body = false)
    (ha : opts.include_attachments = false) (m : RawMsg) :
    decodeOne f opts m = .ok (headerEmail m) := by
  simp [decodeOne, hb, ha, headerEmail]

/-- With both flags unset, the decode loop succeeds on every batch and maps
each raw message to its header record. -/
theorem decodeAll_plain (f : RawMsg → Except JsErr (List Attachment))
    (opts : CheckInboxOptions) (hb : opts.include_body = false)
    (ha : opts.include_attachments = false) :
    ∀ raws : List RawMsg,
      decodeAll (decodeOne f opts) raws = .ok (raws.map headerEmail) := by
  intro raws
  induction raws with
  | nil => simp [decodeAll]
  | cons a t ih =>
    simp [decodeAll, decodeOne_plain f opts hb ha, ih]

/-- C6: `reply_to_email` fails exactly when the reply target is unusable.
With a successful one-shot search (flags unset so decoding is total), the
NotFound error is raised iff the search returned zero matches, the
MalformedEmail error is raised iff the selected first result lacks (is falsy
in) any of from, subject or threadId, and whenever those three are truthy the
reply succeeds — a missing messageId alone never causes failure. -/
theorem c6_reply_failure_conditions :
    ∀ (f : RawMsg → Except JsErr (List Attachment)) (raws : List RawMsg)
      (content : JStr) (opts : CheckInboxOptions),
      opts.include_body = false → opts.include_attachments = false →
      ((reply_to_email f (.ok raws) content opts
          = .error (.error ("No email found matching the provided criteria."))) ↔ raws = [])
      ∧ (∀ r rest, raws = r :: rest →
          ((reply_to_email f (.ok raws) content opts
              = .error (.error ("Missing required information from the original email."))) ↔
            (jsTruthyS (headerEmail r).«from» = false
              ∨ jsTruthyS (headerEmail r).subject = false
              ∨ jsTruthyS (headerEmail r).threadId = false)))
      ∧ (∀ r rest, raws = r :: rest →
          jsTruthyS (headerEmail r).«from» = true →
          jsTruthyS (headerEmail r).subject = true →
          jsTruthyS (headerEmail r).threadId = true →
          ∃ out, reply_to_email f (.ok raws) content opts = .ok out) := by
  intro f raws content opts hb ha
  have hget : _get_recent_email f (.ok raws) opts = .ok (raws.map headerEmail) := by
    simp [_get_recent_email, decodeAll_plain f opts hb ha]
  cases raws with
  | nil =>
    refine ⟨?_, ?_, ?_⟩
    · simp [reply_to_email, hget]
    · intro r rest hcons
      cases hcons
    · intro r rest hcons
      cases hcons
  | cons r rest =>
    refine ⟨?_, ?_, ?_⟩
    · rw [reply_to_email, hget]
      dsimp only [List.map]
      cases h1 : jsTruthyS (headerEmail r).«from» <;>
        cases h2 : jsTruthyS (headerEmail r).subject <;>
          cases h3 : jsTruthyS (headerEmail r).threadId <;>
            simp [h1, h2, h3]
    · intro r2 rest2 hcons
      obtain ⟨rfl, rfl⟩ : r = r2 ∧ rest = rest2 := by
        cases hcons
        exact ⟨rfl, rfl⟩
      rw [reply_to_email, hget]
      dsimp only [List.map]
      cases h1 : jsTruthyS (headerEmail r).«from» <;>
        cases h2 : jsTruthyS (headerEmail r).subject <;>
          cases h3 : jsTruthyS (headerEmail r).threadId <;>
            simp [h1, h2, h3]
    · intro r2 rest2 hcons h1 h2 h3
      obtain ⟨rfl, rfl⟩ : r = r2 ∧ rest = rest2 := by
        cases hcons
        exact ⟨rfl, rfl⟩
      rw [reply_to_email, hget]
      dsimp only [List.map]
      simp [h1, h2, h3]

/-- C6 witness: an empty search result raises the NotFound error. -/
theorem c6_reply_failure_conditions_witness :
    reply_to_email noAtt (.ok []) (js ("thanks")) {}
      = .error (.error ("No email found matching the provided criteria.")) :=
  (c6_reply_failure_conditions noAtt [] (js ("thanks")) {} rfl rfl).1.mpr rfl

/-- A query clause is well-formed: nonempty, starting and ending with a
non-whitespace character. -/
def goodClause (c : JStr) : Prop :=
  (∃ h t, c = h :: t ∧ jsWS h = false) ∧ (∃ A z, c = A ++ [z] ∧ jsWS z = false)

theorem jsTrimRight_append_space (A : JStr) :
    jsTrimRight (A ++ [' ']) = jsTrimRight A := by
  unfold jsTrimRight
  rw [List.reverse_append]
  simp only [List.reverse_cons, List.reverse_nil, List.nil_append, List.singleton_append]
  rw [List.dropWhile_cons_of_pos (by decide)]

theorem jsTrimRight_append_nonws (A : JStr) (z : Char) (hz : jsWS z = false) :
    jsTrimRight (A ++ [z]) = A ++ [z] := by
  unfold jsTrimRight
  rw [List.reverse_append]
  simp only [List.reverse_cons, List.reverse_nil, List.nil_append, List.singleton_append]
  rw [List.dropWhile_cons_of_neg (by simp [hz])]
  simp

theorem jsTrimRight_append_of_ne (X R : JStr) (h : jsTrimRight R ≠ []) :
    jsTrimRight (X ++ R) = X ++ jsTrimRight R := by
  unfold jsTrimRight at h ⊢
  rw [List.reverse_append, List.dropWhile_append]
  have hne : (List.dropWhile jsWS R.reverse).isEmpty = false := by
    cases hE : List.dropWhile jsWS R.reverse with
    | nil => rw [hE] at h; simp at h
    | cons a l => simp
  rw [if_neg (by simp [hne])]
  simp

theorem joinSep_cons_ne_nil (c : JStr) (cs : List JStr) (hc : c ≠ []) :
    joinSep ' ' (c :: cs) ≠ [] := by
  cases cs with
  | nil => simpa [joinSep] using hc
  | cons c2 cs2 => simp [joinSep]

theorem trimRight_join (cs : List JStr) (hgood : ∀ c ∈ cs, goodClause c) :
    jsTrimRight ((cs.map (fun c => c ++ [' '])).flatten) = joinSep ' ' cs := by
  induction cs with
  | nil => simp [jsTrimRight, joinSep]
  | cons c cs2 ih =>
    cases cs2 with
    | nil =>
      obtain ⟨A, z, hAz, hz⟩ := (hgood c (by simp)).2
      simp only [List.map_cons, List.map_nil, List.flatten_cons, List.flatten_nil,
        List.append_nil, joinSep]
      rw [jsTrimRight_append_space, hAz, jsTrimRight_append_nonws A z hz]
    | cons c2 cs3 =>
      have hg2 : ∀ x ∈ c2 :: cs3, goodClause x := by
        intro x hx
        exact hgood x (by simp [hx])
      have ihr := ih hg2
      have hne : joinSep ' ' (c2 :: cs3) ≠ [] := by
        obtain ⟨h2, t2, hht, _⟩ := (hgood c2 (by simp)).1
        exact joinSep_cons_ne_nil c2 cs3 (by rw [hht]; simp)
      rw [List.map_cons, List.flatten_cons]
      rw [jsTrimRight_append_of_ne (c ++ [' '])
        ((List.map (fun x => x ++ [' ']) (c2 :: cs3)).flatten) (by rw [ihr]; exact hne), ihr]
      simp [joinSep, List.append_assoc]

theorem trimLeft_joinSep (cs : List JStr) (hgood : ∀ c ∈ cs, goodClause c) :
    jsTrimLeft (joinSep ' ' cs) = joinSep ' ' cs := by
  cases cs with
  | nil => rfl
  | cons c cs2 =>
    obtain ⟨h, t, hht, hh⟩ := (hgood c (by simp)).1
    cases cs2 with
    | nil =>
      simp only [joinSep]
      rw [hht]
      unfold jsTrimLeft
      rw [List.dropWhile_cons_of_neg (by simp [hh])]
    | cons c2 cs3 =>
      simp only [joinSep]
      rw [hht, List.cons_append]
      unfold jsTrimLeft
      rw [List.dropWhile_cons_of_neg (by simp [hh])]

theorem jsTrim_join (cs : List JStr) (hgood : ∀ c ∈ cs, goodClause c) :
    jsTrim ((cs.map (fun c => c ++ [' '])).flatten) = joinSep ' ' cs := by
  unfold jsTrim
  rw [trimRight_join cs hgood, trimLeft_joinSep cs hgood]

theorem natToChars_last (n : Nat) :
    ∃ A d, natToChars n = A ++ [Nat.digitChar d] ∧ d < 10 := by
  induction n using natToChars.induct with
  | case1 n h =>
    exact ⟨[], n, by simp [natToChars, h], h⟩
  | case2 n h ih =>
    exact ⟨natToChars (n / 10), n % 10, by rw [natToChars]; simp [h],
      Nat.mod_lt _ (by norm_num)⟩

theorem digitChar_not_ws : ∀ d, d < 10 → jsWS (Nat.digitChar d) = false := by decide

theorem intToJStr_last (i : Int) :
    ∃ A z, intToJStr i = A ++ [z] ∧ jsWS z = false := by
  obtain ⟨A, d, hA, hd⟩ := natToChars_last i.natAbs
  unfold intToJStr
  by_cases h : i < 0
  · exact ⟨'-' :: A, Nat.digitChar d, by rw [if_pos h, hA]; rfl, digitChar_not_ws d hd⟩
  · exact ⟨A, Nat.digitChar d, by rw [if_neg h, hA], digitChar_not_ws d hd⟩

theorem specClauses_good (opts : CheckInboxOptions) :
    ∀ c ∈ specClauses opts, goodClause c := by
  intro c hc
  unfold specClauses at hc
  simp only [List.mem_append] at hc
  rcases hc with ((((hc | hc) | hc) | hc) | hc)
  · by_cases hb : jsTruthyS opts.«to» = true
    · simp only [hb, if_true, List.mem_singleton] at hc
      subst hc
      exact ⟨⟨'t', _, rfl, by decide⟩, ⟨_, '"', rfl, by decide⟩⟩
    · simp [hb] at hc
  · by_cases hb : jsTruthyS opts.«from» = true
    · simp only [hb, if_true, List.mem_singleton] at hc
      subst hc
      exact ⟨⟨'f', _, rfl, by decide⟩, ⟨_, '"', rfl, by decide⟩⟩
    · simp [hb] at hc
  · by_cases hb : jsTruthyS opts.subject = true
    · simp only [hb, if_true, List.mem_singleton] at hc
      subst hc
      exact ⟨⟨'s', _, rfl, by decide⟩, ⟨_, ')', rfl, by decide⟩⟩
    · simp [hb] at hc
  · cases hafter : opts.after with
    | none => simp [hafter] at hc
    | some ms =>
      simp only [hafter, List.mem_singleton] at hc
      subst hc
      obtain ⟨A, z, hAz, hz⟩ := intToJStr_last (jsRound1000 ms)
      refine ⟨⟨'a', _, rfl, by decide⟩, ⟨js ("after:") ++ A, z, ?_, hz⟩⟩
      rw [hAz, ← List.append_assoc]
  · cases hbefore : opts.before with
    | none => simp [hbefore] at hc
    | some ms =>
      simp only [hbefore, List.mem_singleton] at hc
      subst hc
      obtain ⟨A, z, hAz, hz⟩ := intToJStr_last (jsRound1000 ms)
      refine ⟨⟨'b', _, rfl, by decide⟩, ⟨js ("before:") ++ A, z, ?_, hz⟩⟩
      rw [hAz, ← List.append_assoc]

theorem joinSep_good (cs : List JStr) (hne : cs ≠ [])
    (hgood : ∀ c ∈ cs, goodClause c) : goodClause (joinSep ' ' cs) := by
  induction cs with
  | nil => cases hne rfl
  | cons c cs2 ih =>
    cases cs2 with
    | nil =>
      simpa [joinSep] using hgood c (by simp)
    | cons c2 cs3 =>
      have hg2 : ∀ x ∈ c2 :: cs3, goodClause x := fun x hx => hgood x (by simp [hx])
      obtain ⟨⟨h, t, hht, hh⟩, _⟩ := hgood c (by simp)
      obtain ⟨_, ⟨A, z, hAz, hz⟩⟩ := ih (by simp) hg2
      constructor
      · refine ⟨h, t ++ ' ' :: joinSep ' ' (c2 :: cs3), ?_, hh⟩
        simp [joinSep, hht]
      · refine ⟨c ++ ' ' :: A, z, ?_, hz⟩
        simp [joinSep, hAz, List.append_assoc]

/-- C2: the QueryBuilder.  For every options record, `_init_query` returns
exactly the clauses of the set fields, in the fixed order to, from, subject,
after, before, each formatted as `to:"…"`, `from:"…"`, `subject:(…)`,
`after:<epoch>`, `before:<epoch>` (epoch in rounded Unix seconds), joined by
single spaces; the result has no leading or trailing whitespace, and an empty
options record yields the empty string. -/
theorem c2_query_builder :
    ∀ opts : CheckInboxOptions,
      _init_query opts = specQuery opts
      ∧ (_init_query opts = [] ∨ goodClause (_init_query opts))
      ∧ _init_query {} = [] := by
  intro opts
  have hgood := specClauses_good opts
  have hflat : _init_query opts
      = jsTrim (((specClauses opts).map (fun c => c ++ [' '])).flatten) := by
    simp only [_init_query, specClauses]
    have e1 : js ("\" ") = js ("\"") ++ [' '] := rfl
    have e3 : js (") ") = js (")") ++ [' '] := rfl
    have e4 : js (" ") = [' '] := rfl
    congr 1
    cases hb1 : jsTruthyS opts.«to» <;> cases hb2 : jsTruthyS opts.«from» <;>
      cases hb3 : jsTruthyS opts.subject <;> cases hb4 : opts.after <;>
        cases hb5 : opts.before <;>
          simp [hb1, hb2, hb3, hb4, hb5, e1, e3, e4, List.append_assoc]
  have hmain : _init_query opts = specQuery opts := by
    rw [hflat, jsTrim_join _ hgood]
    rfl
  refine ⟨hmain, ?_, by rfl⟩
  cases hcs : specClauses opts with
  | nil =>
    left
    rw [hmain]
    unfold specQuery
    rw [hcs]
    rfl
  | cons c cs2 =>
    right
    rw [hmain]
    unfold specQuery
    rw [hcs]
    exact joinSep_good (c :: cs2) (by simp) (by rw [← hcs]; exact hgood)

/-- Whether a part is a `text/plain` part. -/
def isPlainPart (p : RawPart) : Bool := p.mimeType == js ("text/plain")

/-- Whether a part is a `text/html` part. -/
def isHtmlPart (p : RawPart) : Bool := p.mimeType == js ("text/html")

/-- The base64 body data carried by a part (empty when absent). -/
def partData (p : RawPart) : JStr :=
  match p.body with
  | some b => b.data.getD []
  | none => []

/-- The decoded data of the last part of a visit sequence matching a
predicate, or a default when no part matches. -/
def lastDecoded (dflt : List Nat) (pred : RawPart → Bool) (seq : List RawPart) : List Nat :=
  match (seq.filter pred).getLast? with
  | some p => b64decodeBytes (partData p)
  | none => dflt

theorem lastDecoded_cons_pos (dflt : List Nat) (pred : RawPart → Bool) (p : RawPart)
    (seq : List RawPart) (hp : pred p = true) :
    lastDecoded dflt pred (p :: seq)
      = lastDecoded (b64decodeBytes (partData p)) pred seq := by
  unfold lastDecoded
  rw [List.filter_cons_of_pos hp]
  cases h : (seq.filter pred).getLast? with
  | none =>
    have hnil : seq.filter pred = [] := by
      cases hf : seq.filter pred with
      | nil => rfl
      | cons x xs =>
        rw [hf] at h
        simp [List.getLast?_cons] at h
    rw [hnil]
    simp
  | some q =>
    cases hf : seq.filter pred with
    | nil =>
      rw [hf] at h
      cases h
    | cons x xs =>
      have h2 : (x :: xs).getLast? = some q := by rw [← hf]; exact h
      rw [List.getLast?_cons_cons, h2]

theorem lastDecoded_cons_neg (dflt : List Nat) (pred : RawPart → Bool) (p : RawPart)
    (seq : List RawPart) (hp : pred p = false) :
    lastDecoded dflt pred (p :: seq) = lastDecoded dflt pred seq := by
  unfold lastDecoded
  rw [List.filter_cons_of_neg (by simp [hp])]

theorem bfsSeq_cons (p : RawPart) (rest : List RawPart) :
    bfsSeq (p :: rest) = p :: bfsSeq (queueStep p rest) := by
  rw [bfsSeq]

/-- The worklist loop of the decoder computed in closed form: provided every
`text/plain` or `text/html` part it visits carries body data, the loop
succeeds and each of `text` and `html` ends up holding the decoded data of
the last matching part in breadth-first visit order (or its initial value
when no part matches). -/
theorem walkParts_lastDecoded :
    ∀ (queue : List RawPart) (eb : EmailBody),
      (∀ p ∈ bfsSeq queue, (isPlainPart p || isHtmlPart p) = true →
        ∃ b d, p.body = some b ∧ b.data = some d) →
      walkParts eb queue
        = .ok { html := lastDecoded eb.html isHtmlPart (bfsSeq queue),
                text := lastDecoded eb.text isPlainPart (bfsSeq queue) } := by
  intro queue
  induction queue using bfsSeq.induct with
  | case1 =>
    intro eb _h
    simp [walkParts, bfsSeq, lastDecoded]
  | case2 p rest ih =>
    intro eb H
    have hseq := bfsSeq_cons p rest
    have Htail : ∀ q ∈ bfsSeq (queueStep p rest), (isPlainPart q || isHtmlPart q) = true →
        ∃ b d, q.body = some b ∧ b.data = some d := by
      intro q hq
      exact H q (by rw [hseq]; exact List.mem_cons_of_mem _ hq)
    by_cases hplain : p.mimeType = js ("text/plain")
    · have hpp : isPlainPart p = true := by simp [isPlainPart, hplain]
      have hph : isHtmlPart p = false := by
        simp only [isHtmlPart, hplain]
        decide
      obtain ⟨b, d, hb, hd⟩ := H p (by rw [hseq]; simp) (by simp [hpp])
      have hpd : partData p = d := by simp [partData, hb, hd]
      rw [walkParts]
      simp only [hplain, if_true, hb, bufferFromB64, hd]
      rw [ih { eb with text := b64decodeBytes d } Htail]
      rw [hseq, lastDecoded_cons_pos _ _ _ _ hpp, lastDecoded_cons_neg _ _ _ _ hph, hpd]
    · by_cases hhtml : p.mimeType = js ("text/html")
      · have hpp : isPlainPart p = false := by
          simp only [isPlainPart]
          simp [hplain]
        have hph : isHtmlPart p = true := by simp [isHtmlPart, hhtml]
        obtain ⟨b, d, hb, hd⟩ := H p (by rw [hseq]; simp) (by simp [hph])
        have hpd : partData p = d := by simp [partData, hb, hd]
        rw [walkParts]
        simp only [hplain, if_false]
        rw [if_pos hhtml]
        simp only [hb, bufferFromB64, hd]
        rw [ih { eb with html := b64decodeBytes d } Htail]
        rw [hseq, lastDecoded_cons_pos _ _ _ _ hph, lastDecoded_cons_neg _ _ _ _ hpp, hpd]
      · have hpp : isPlainPart p = false := by
          simp only [isPlainPart]
          simp [hplain]
        have hph : isHtmlPart p = false := by
          simp only [isHtmlPart]
          simp [hhtml]
        rw [walkParts]
        simp only [hplain, hhtml, if_false]
        rw [ih eb Htail]
        rw [hseq, lastDecoded_cons_neg _ _ _ _ hph, lastDecoded_cons_neg _ _ _ _ hpp]

/-- C5: the MessageDecoder on a multipart message with `includeBody` set runs
a breadth-first worklist over the parts, appending nested parts to the back
of the queue; every `text/plain` part's base64 body is decoded into `text`
and every `text/html` part's into `html` at any nesting depth, the last
matching part of each type in visit order winning; in particular the
`multipart/mixed`-of-`multipart/alternative` message with one `text/plain`
and one `text/html` leaf decodes with both `text` and `html` populated. -/
theorem c5_multipart_bfs_decode :
    (∀ (queue : List RawPart) (eb : EmailBody),
      (∀ p ∈ bfsSeq queue, (isPlainPart p || isHtmlPart p) = true →
        ∃ b d, p.body = some b ∧ b.data = some d) →
      walkParts eb queue
        = .ok { html := lastDecoded eb.html isHtmlPart (bfsSeq queue),
                text := lastDecoded eb.text isPlainPart (bfsSeq queue) })
    ∧ bfsSeq [altPart] = [altPart, plainLeaf, htmlLeaf]
    ∧ decodeBody nestedRaw
        = .ok { html := b64decodeBytes (js ("PGI+")),
                text := b64decodeBytes (js ("aGVsbG8=")) }
    ∧ b64decodeBytes (js ("PGI+")) = [60, 98, 62]
    ∧ b64decodeBytes (js ("aGVsbG8=")) = [104, 101, 108, 108, 111] := by
  refine ⟨walkParts_lastDecoded, ?_, ?_, by decide, by decide⟩
  · simp [bfsSeq, queueStep, altPart, plainLeaf, htmlLeaf, RawPart.parts]
  · simp [decodeBody, nestedRaw, walkParts, queueStep, altPart, plainLeaf, htmlLeaf,
      RawPart.parts, RawPart.mimeType, RawPart.body, bufferFromB64]
    decide

/-- C5 witness: the worklist characterization applied to the nested
multipart structure. -/
theorem c5_multipart_bfs_decode_witness :
    walkParts { html := [], text := [] } [altPart]
      = .ok { html := lastDecoded [] isHtmlPart (bfsSeq [altPart]),
              text := lastDecoded [] isPlainPart (bfsSeq [altPart]) } :=
  c5_multipart_bfs_decode.1 [altPart] { html := [], text := [] } (by
    intro p hp
    simp [bfsSeq, queueStep, altPart, plainLeaf, htmlLeaf, RawPart.parts] at hp
    rcases hp with rfl | rfl | rfl
    · intro hx
      exact absurd hx (by decide)
    · intro _hx
      exact ⟨_, _, rfl, rfl⟩
    · intro _hx
      exact ⟨_, _, rfl, rfl⟩)

theorem sextetOfChar_charOf : ∀ s, s < 64 → sextetOfChar (charOfSextet s) = some s := by
  decide

theorem b64Alpha_length : b64Alpha.length = 64 := by decide

theorem charOf_isSome (s : Nat) : (sextetOfChar (charOfSextet s)).isSome = true := by
  by_cases h : s < 64
  · rw [sextetOfChar_charOf s h]
    rfl
  · have hA : charOfSextet s = 'A' := by
      unfold charOfSextet
      apply List.getD_eq_default
      rw [b64Alpha_length]
      omega
    rw [hA]
    decide

theorem b64encode_shape (bs : List Nat) :
    ∃ A k, b64encode bs = A ++ List.replicate k '=' ∧ k ≤ 2
      ∧ ∀ c ∈ A, (sextetOfChar c).isSome = true := by
  induction bs using b64encode.induct with
  | case1 b0 b1 b2 rest ih =>
    obtain ⟨A, k, hA, hk, hmem⟩ := ih
    refine ⟨charOfSextet (b0 / 4) :: charOfSextet ((b0 % 4) * 16 + b1 / 16) ::
      charOfSextet ((b1 % 16) * 4 + b2 / 64) :: charOfSextet (b2 % 64) :: A, k, ?_, hk, ?_⟩
    · simp [b64encode, hA]
    · intro c hc
      simp only [List.mem_cons] at hc
      rcases hc with rfl | rfl | rfl | rfl | hc2
      · exact charOf_isSome _
      · exact charOf_isSome _
      · exact charOf_isSome _
      · exact charOf_isSome _
      · exact hmem c hc2
  | case2 b0 b1 =>
    refine ⟨[charOfSextet (b0 / 4), charOfSextet ((b0 % 4) * 16 + b1 / 16),
      charOfSextet ((b1 % 16) * 4)], 1, by simp [b64encode], by norm_num, ?_⟩
    intro c hc
    simp only [List.mem_cons] at hc
    rcases hc with rfl | rfl | rfl | hc2
    · exact charOf_isSome _
    · exact charOf_isSome _
    · exact charOf_isSome _
    · simp at hc2
  | case3 b0 =>
    refine ⟨[charOfSextet (b0 / 4), charOfSextet ((b0 % 4) * 16)], 2,
      by simp [b64encode, List.replicate], by norm_num, ?_⟩
    intro c hc
    simp only [List.mem_cons] at hc
    rcases hc with rfl | rfl | hc2
    · exact charOf_isSome _
    · exact charOf_isSome _
    · simp at hc2
  | case4 =>
    exact ⟨[], 0, by simp [b64encode], by norm_num, by simp⟩

theorem filterMap_sextet_replicate (k : Nat) :
    (List.replicate k '=').filterMap sextetOfChar = [] := by
  induction k with
  | zero => rfl
  | succ n ih =>
    rw [List.replicate_succ, List.filterMap_cons_none (by decide)]
    exact ih

theorem b64quanta_encode (bs : List Nat) (hb : ∀ b ∈ bs, b < 256) :
    b64quanta ((b64encode bs).filterMap sextetOfChar) = bs := by
  induction bs using b64encode.induct with
  | case1 b0 b1 b2 rest ih =>
    have h0 : b0 < 256 := hb b0 (by simp)
    have h1 : b1 < 256 := hb b1 (by simp)
    have h2 : b2 < 256 := hb b2 (by simp)
    have s0 := sextetOfChar_charOf (b0 / 4) (by omega)
    have s1 := sextetOfChar_charOf ((b0 % 4) * 16 + b1 / 16) (by omega)
    have s2 := sextetOfChar_charOf ((b1 % 16) * 4 + b2 / 64) (by omega)
    have s3 := sextetOfChar_charOf (b2 % 64) (by omega)
    simp only [b64encode]
    rw [List.filterMap_cons_some s0, List.filterMap_cons_some s1,
      List.filterMap_cons_some s2, List.filterMap_cons_some s3]
    simp only [b64quanta]
    have e0 : b0 / 4 * 4 + ((b0 % 4) * 16 + b1 / 16) / 16 = b0 := by omega
    have e1 : ((b0 % 4) * 16 + b1 / 16) % 16 * 16 + ((b1 % 16) * 4 + b2 / 64) / 4 = b1 := by
      omega
    have e2 : ((b1 % 16) * 4 + b2 / 64) % 4 * 64 + b2 % 64 = b2 := by omega
    rw [e0, e1, e2, ih (fun b hbm => hb b (by simp [hbm]))]
  | case2 b0 b1 =>
    have h0 : b0 < 256 := hb b0 (by simp)
    have h1 : b1 < 256 := hb b1 (by simp)
    have s0 := sextetOfChar_charOf (b0 / 4) (by omega)
    have s1 := sextetOfChar_charOf ((b0 % 4) * 16 + b1 / 16) (by omega)
    have s2 := sextetOfChar_charOf ((b1 % 16) * 4) (by omega)
    simp only [b64encode]
    rw [List.filterMap_cons_some s0, List.filterMap_cons_some s1,
      List.filterMap_cons_some s2, List.filterMap_cons_none (by decide),
      List.filterMap_nil]
    simp only [b64quanta]
    have e0 : b0 / 4 * 4 + ((b0 % 4) * 16 + b1 / 16) / 16 = b0 := by omega
    have e1 : ((b0 % 4) * 16 + b1 / 16) % 16 * 16 + (b1 % 16) * 4 / 4 = b1 := by omega
    rw [e0, e1]
  | case3 b0 =>
    have h0 : b0 < 256 := hb b0 (by simp)
    have s0 := sextetOfChar_charOf (b0 / 4) (by omega)
    have s1 := sextetOfChar_charOf ((b0 % 4) * 16) (by omega)
    simp only [b64encode]
    rw [List.filterMap_cons_some s0, List.filterMap_cons_some s1,
      List.filterMap_cons_none (by decide), List.filterMap_cons_none (by decide),
      List.filterMap_nil]
    simp only [b64quanta]
    have e0 : b0 / 4 * 4 + (b0 % 4) * 16 / 16 = b0 := by omega
    rw [e0]
  | case4 => rfl

theorem idxOfChar_isSome_mem (c : Char) :
    ∀ l : List Char, (idxOfChar c l).isSome = true → c ∈ l := by
  intro l
  induction l with
  | nil => simp [idxOfChar]
  | cons a rest ih =>
    intro h
    unfold idxOfChar at h
    by_cases hac : a = c
    · rw [hac]
      exact List.mem_cons_self c rest
    · rw [if_neg hac] at h
      cases hio : idxOfChar c rest with
      | none => rw [hio] at h; simp at h
      | some v => exact List.mem_cons_of_mem _ (ih (by rw [hio]; rfl))

theorem alpha_char_facts : ∀ c ∈ b64Alpha,
    replBackUrl (replUrl c) = c ∧ replUrl c ≠ '+' ∧ replUrl c ≠ '/' ∧ replUrl c ≠ '=' := by
  decide

theorem stripTrailEq_append_replicate (X : JStr) (k : Nat) :
    stripTrailEq (X ++ List.replicate k '=') = stripTrailEq X := by
  unfold stripTrailEq
  rw [List.reverse_append, List.reverse_replicate,
    List.dropWhile_append_of_pos (by simp [List.mem_replicate])]

theorem stripTrailEq_no_eq (X : JStr) (h : ∀ c ∈ X, c ≠ '=') : stripTrailEq X = X := by
  unfold stripTrailEq
  cases hX : X.reverse with
  | nil =>
    have : X = [] := by simpa using congrArg List.reverse hX
    rw [this]
    rfl
  | cons a l =>
    rw [List.dropWhile_cons_of_neg]
    · rw [← hX, List.reverse_reverse]
    · have ha : a ∈ X := by
        rw [← List.mem_reverse, hX]
        exact List.mem_cons_self a l
      simp [h a ha]

theorem utf8Char_lt (c : Char) : ∀ b ∈ utf8Char c, b < 256 := by
  have hval : c.toNat < 1114112 := by
    rcases c.valid with h | ⟨_, h2⟩
    · exact Nat.lt_trans h (by norm_num)
    · exact h2
  intro b hb
  unfold utf8Char at hb
  dsimp only at hb
  by_cases h1 : c.toNat < 128
  · rw [if_pos h1] at hb
    simp at hb
    omega
  · rw [if_neg h1] at hb
    by_cases h2 : c.toNat < 2048
    · rw [if_pos h2] at hb
      simp at hb
      omega
    · rw [if_neg h2] at hb
      by_cases h3 : c.toNat < 65536
      · rw [if_pos h3] at hb
        simp at hb
        omega
      · rw [if_neg h3] at hb
        simp at hb
        omega

theorem strBytes_lt (s : JStr) : ∀ b ∈ strBytes s, b < 256 := by
  intro b hb
  unfold strBytes at hb
  rw [List.mem_flatten] at hb
  obtain ⟨l, hl, hbl⟩ := hb
  rw [List.mem_map] at hl
  obtain ⟨c, _, rfl⟩ := hl
  exact utf8Char_lt c b hbl

/-- C7: the reply encoding round-trips.  For every message string, the
encoded form produced by the `reply_to_email` pipeline contains no `+`, `/`
or `=` character, and reversing the URL-safe substitutions, re-padding and
base64-decoding reproduces exactly the UTF-8 bytes of the message; and every
successful `reply_to_email` emits as `raw` precisely that encoding of its
header block, blank line and body text joined with newline separators. -/
theorem c7_reply_encoding_roundtrip :
    (∀ s : JStr, (∀ c ∈ rawEncode s, c ≠ '+' ∧ c ≠ '/' ∧ c ≠ '=')
      ∧ b64urlDecode (rawEncode s) = strBytes s)
    ∧ (∀ (f : RawMsg → Except JsErr (List Attachment)) (raws : List RawMsg)
        (content : JStr) (opts : CheckInboxOptions) (out : SendRequest),
        opts.include_body = false → opts.include_attachments = false →
        reply_to_email f (.ok raws) content opts = .ok out →
        ∃ r rest, raws = r :: rest ∧
          out.raw = rawEncode (joinSep '\n'
            (buildReplyLines (getJStr (headerEmail r).«from»)
              (replySubjectOf (getJStr (headerEmail r).subject))
              (getJStr (jsOrS (headerEmail r).messageId (some []))) content))) := by
  constructor
  · intro s
    obtain ⟨A, k, hA, _hk, hmem⟩ := b64encode_shape (strBytes s)
    have hmapA : ∀ c ∈ A.map replUrl, c ≠ '+' ∧ c ≠ '/' ∧ c ≠ '=' := by
      intro c hc
      obtain ⟨a, ha, rfl⟩ := List.mem_map.mp hc
      have hfacts := alpha_char_facts a (idxOfChar_isSome_mem a b64Alpha (hmem a ha))
      exact ⟨hfacts.2.1, hfacts.2.2.1, hfacts.2.2.2⟩
    have hraw : rawEncode s = A.map replUrl := by
      unfold rawEncode
      rw [hA, List.map_append, List.map_replicate,
        show replUrl '=' = '=' from rfl, stripTrailEq_append_replicate,
        stripTrailEq_no_eq]
      intro c hc
      exact (hmapA c hc).2.2
    refine ⟨by rw [hraw]; exact hmapA, ?_⟩
    rw [hraw]
    unfold b64urlDecode
    have hback : (A.map replUrl).map replBackUrl = A := by
      rw [List.map_map]
      have hcongr : ∀ a ∈ A, (replBackUrl ∘ replUrl) a = a := fun a ha =>
        (alpha_char_facts a (idxOfChar_isSome_mem a b64Alpha (hmem a ha))).1
      rw [List.map_congr_left hcongr, List.map_id']
    rw [hback]
    unfold repadB64 b64decodeBytes
    rw [List.filterMap_append, filterMap_sextet_replicate, List.append_nil]
    have hfm : (b64encode (strBytes s)).filterMap sextetOfChar
        = A.filterMap sextetOfChar := by
      rw [hA, List.filterMap_append, filterMap_sextet_replicate, List.append_nil]
    rw [← hfm]
    exact b64quanta_encode (strBytes s) (strBytes_lt s)
  · intro f raws content opts out hb ha hok
    have hget : _get_recent_email f (.ok raws) opts = .ok (raws.map headerEmail) := by
      simp [_get_recent_email, decodeAll_plain f opts hb ha]
    rw [reply_to_email, hget] at hok
    cases raws with
    | nil => cases hok
    | cons r rest =>
      dsimp only [List.map] at hok
      by_cases hcond : (jsTruthyS (headerEmail r).«from» && jsTruthyS (headerEmail r).subject
          && jsTruthyS (headerEmail r).threadId) = true
      · rw [if_pos hcond] at hok
        refine ⟨r, rest, rfl, ?_⟩
        have := congrArg SendRequest.raw (Except.ok.inj hok)
        rw [← this]
      · rw [if_neg hcond] at hok
        cases hok

/-- C7 witness: a concrete reply run whose raw field is the encoding of the
constructed document. -/
theorem c7_reply_encoding_roundtrip_witness :
    ∃ r rest, [sampleRaw] = r :: rest ∧
      (SendRequest.mk
          (rawEncode (joinSep '\n'
            (buildReplyLines (js ("a@b.c")) (replySubjectOf (js ("Hi"))) []
              (js ("ok")))))
          (js ("t1"))).raw
        = rawEncode (joinSep '\n'
            (buildReplyLines (getJStr (headerEmail r).«from»)
              (replySubjectOf (getJStr (headerEmail r).subject))
              (getJStr (jsOrS (headerEmail r).messageId (some []))) (js ("ok")))) :=
  c7_reply_encoding_roundtrip.2 noAtt [sampleRaw] (js ("ok")) {}
    (SendRequest.mk
      (rawEncode (joinSep '\n'
        (buildReplyLines (js ("a@b.c")) (replySubjectOf (js ("Hi"))) [] (js ("ok")))))
      (js ("t1")))
    rfl rfl (by decide)
